import Mathlib

/-!
Shallow embedding of `src/himawari_wallpaper.py`: time alignment, retention
pruning, mirror-failover tile download, grid stitching, and canvas
composition, together with theorems checking the specified properties.
-/

namespace Himawari

/-- Microseconds in one minute. -/
def MICROS_PER_MINUTE : Nat := 60000000

/-- Microseconds in one hour. -/
def MICROS_PER_HOUR : Nat := 3600000000

/-- Minute field of an absolute UTC instant measured in microseconds. -/
def minute_of (t : Nat) : Nat := t / MICROS_PER_MINUTE % 60

/-- Second field of an absolute UTC instant measured in microseconds. -/
def second_of (t : Nat) : Nat := t / 1000000 % 60

/-- Microsecond field of an absolute UTC instant. -/
def micro_of (t : Nat) : Nat := t % 1000000

/-- Model of `datetime.replace(minute=m, second=s, microsecond=u)` on an
absolute instant: the fields from the hour upward are kept, the sub-hour
fields are replaced. -/
def replace_time (t m s u : Nat) : Nat :=
  t / MICROS_PER_HOUR * MICROS_PER_HOUR + m * MICROS_PER_MINUTE + s * 1000000 + u

/-- Model of `get_aligned_time`: subtract `DELAY_MINUTES` from now, truncate
the minute field down to a multiple of `UPDATE_INTERVAL_MINUTES`, and zero
the seconds and microseconds. -/
def get_aligned_time (now delay_minutes update_interval : Nat) : Nat :=
  let target := now - delay_minutes * MICROS_PER_MINUTE
  let minute := minute_of target / update_interval * update_interval
  replace_time target minute 0 0

/-- Model of `convert_time`: replace the path separator for filenames. -/
def convert_time (time_str : String) : String := time_str.replace "/" "__"

/-- Split a character list on every occurrence of a separator character,
keeping empty fields, exactly as Python `str.split` with a one-character
separator does. -/
def split_on_char (sep : Char) : List Char → List (List Char)
  | [] => [[]]
  | c :: rest =>
    match split_on_char sep rest with
    | [] => if c = sep then [[], []] else [[c]]
    | g :: gs => if c = sep then [] :: g :: gs else (c :: g) :: gs

/-- Join character-list fields with a separator character. -/
def join_with (sep : Char) : List (List Char) → List Char
  | [] => []
  | [g] => g
  | g :: gs => g ++ sep :: join_with sep gs

/-- Stem of a filename, the name without its final extension, as
`pathlib` computes it for plain file names. -/
def stem_of (name : String) : String :=
  let parts := split_on_char ('.') name.data
  if parts.length ≤ 1 then name else String.mk (join_with ('.') parts.dropLast)

/-- Model of `list_png`: the PNG files among a directory listing. -/
def list_png (entries : List String) : List String :=
  entries.filter (fun n => ['.', 'p', 'n', 'g'].isSuffixOf n.data)

/-- Model of `get_timestamp`: the third underscore-separated token of the
stem, with fallback token "0" when fewer than three fields exist. -/
def get_timestamp (file_path : String) : String :=
  let parts := split_on_char ('_') (stem_of file_path).data
  if 3 ≤ parts.length then String.mk (parts.getD 2 ['0']) else "0"

/-- Lexicographic strict comparison of character lists by code point, the
order Python uses to compare `str` values. -/
def lt_chars : List Char → List Char → Bool
  | [], [] => false
  | [], _ :: _ => true
  | _ :: _, [] => false
  | c :: cs, d :: ds => if c < d then true else if d < c then false else lt_chars cs ds

/-- Lexicographic non-strict comparison of character lists. -/
def le_chars (a b : List Char) : Bool := !(lt_chars b a)

/-- Stable insertion into a list sorted ascending by `get_timestamp`. -/
def insert_by_key (x : String) : List String → List String
  | [] => [x]
  | y :: ys =>
    if le_chars (get_timestamp x).data (get_timestamp y).data then x :: y :: ys
    else y :: insert_by_key x ys

/-- Stable ascending sort by `get_timestamp`, modelling
`images.sort(key=get_timestamp)` (Python sorts are stable). -/
def sort_by_timestamp (l : List String) : List String := l.foldr insert_by_key []

/-- Model of `clean_old_images`: the PNG files that survive the prune, namely
the key-sorted listing with the first `count - max_images` entries deleted. -/
def clean_old_images (entries : List String) (max_images : Nat) : List String :=
  let images := list_png entries
  if images.length ≤ max_images then images
  else (sort_by_timestamp images).drop (images.length - max_images)

/-- Pixel color, as an RGB triple. -/
abbrev Pixel := Nat × Nat × Nat

/-- Solid black, the background used by the source. -/
def black : Pixel := (0, 0, 0)

/-- Solid white, used as a marker color in concrete instances. -/
def white : Pixel := (255, 255, 255)

/-- A raster image: its dimensions plus a total pixel map. -/
structure Img where
  w : Nat
  h : Nat
  pix : Nat → Nat → Pixel

/-- Model of PIL `Image.new`: a solid-color image (black when no fill is
given). -/
def image_new (w h : Nat) (c : Pixel) : Img := ⟨w, h, fun _ _ => c⟩

/-- Whether pasting `tile` at offset `(ox, oy)` covers the point `(x, y)`. -/
def covers (tile : Img) (ox oy : Int) (x y : Nat) : Prop :=
  ox ≤ (x : Int) ∧ (x : Int) < ox + (tile.w : Int) ∧
    oy ≤ (y : Int) ∧ (y : Int) < oy + (tile.h : Int)

instance (tile : Img) (ox oy : Int) (x y : Nat) : Decidable (covers tile ox oy x y) := by
  unfold covers; infer_instance

/-- Model of PIL `Image.paste`: overwrite the covered region with the pasted
tile, silently cropping whatever falls outside the base image. -/
def paste (base tile : Img) (ox oy : Int) : Img :=
  { base with pix := fun x y =>
      if covers tile ox oy x y then tile.pix ((x : Int) - ox).toNat ((y : Int) - oy).toNat
      else base.pix x y }

/-- Error raised by `download_tiles` when every mirror failed for one grid
cell, carrying the cell coordinate and the last underlying error. -/
structure TileUnavailable (E : Type) where
  col : Nat
  row : Nat
  cause : Option E

/-- Mirror-failover loop of `download_tiles`: try each mirror in order with a
running `last_exception`, returning the first success, else the last error. -/
def try_mirrors {μ E : Type} (f : μ → Except E Img) : List μ → Option E → Except (Option E) Img
  | [], last => .error last
  | m :: ms, _ =>
    match f m with
    | .ok t => .ok t
    | .error e => try_mirrors f ms (some e)

/-- The mirrors actually attempted for one cell, in attempt order. -/
def attempted {μ E : Type} (f : μ → Except E Img) : List μ → List μ
  | [] => []
  | m :: ms =>
    match f m with
    | .ok _ => [m]
    | .error _ => m :: attempted f ms

/-- One cell of `download_tiles`: failover over the mirror list, raising
`TileUnavailable` with the coordinate when all mirrors fail. -/
def fetch_cell {μ E : Type} (mirrors : List μ) (f : μ → Except E Img) (row col : Nat) :
    Except (TileUnavailable E) Img :=
  match try_mirrors f mirrors none with
  | .ok t => .ok t
  | .error e => .error ⟨col, row, e⟩

/-- Collect a list of fallible results, stopping at the first error, as the
sequential append loops of `download_tiles` do. -/
def collect_results {E A : Type} : List (Except E A) → Except E (List A)
  | [] => .ok []
  | x :: xs =>
    match x with
    | .error e => .error e
    | .ok a =>
      match collect_results xs with
      | .error e => .error e
      | .ok rest => .ok (a :: rest)

/-- Model of `download_tiles`: row-major download of the nd-by-nd grid, with
rows outer and columns inner, failing at the first cell whose fetch fails. -/
def download_tiles {E : Type} (nd : Nat) (fetchCell : Nat → Nat → Except E Img) :
    Except E (List (List Img)) :=
  collect_results ((List.range nd).map (fun row =>
    collect_results ((List.range nd).map (fun col => fetchCell row col))))

/-- Row-major iteration order of the two nested paste loops in
`stitch_tiles`. -/
def row_major (nd : Nat) : List (Nat × Nat) :=
  ((List.range nd).map (fun row => (List.range nd).map (fun col => (row, col)))).flatten

/-- Matrix indexing `tiles[r][c]`; the default is never reached by the source,
which only indexes cells it downloaded. -/
def tile_at (tiles : List (List Img)) (r c : Nat) : Img :=
  (tiles.getD r []).getD c (image_new 0 0 black)

/-- The paste loop of `stitch_tiles` over a given iteration order, with the
tile size taken from the first tile. -/
def paste_grid (tiles : List (List Img)) (tw th : Nat) (l : List (Nat × Nat)) (init : Img) :
    Img :=
  l.foldl (fun big rc =>
    paste big (tile_at tiles rc.1 rc.2) ((rc.2 * tw : Nat) : Int) ((rc.1 * th : Nat) : Int))
    init

/-- Model of `stitch_tiles`: allocate a canvas sized from the first tile, then
paste every tile at its grid-proportional offset in row-major order. -/
def stitch_tiles (nd : Nat) (tiles : List (List Img)) : Img :=
  paste_grid tiles (tile_at tiles 0 0).w (tile_at tiles 0 0).h (row_major nd)
    (image_new ((tile_at tiles 0 0).w * nd) ((tile_at tiles 0 0).h * nd) black)

/-- Truncation toward zero, as Python `int()` applied to a number. -/
def int_trunc (q : ℚ) : Int := if 0 ≤ q then ⌊q⌋ else ⌈q⌉

/-- The `target_size` computation of `resize_and_center`: the short canvas
edge scaled by the cover ratio and truncated to an integer. -/
def target_size (W H : Nat) (cr : ℚ) : Int := int_trunc ((min W H : Nat) * cr)

/-- Model of `resize_and_center`. The resampling call is abstracted as the
function argument `resize`; a negative target size makes the library resize
call fail, modelled by `none`. -/
def resize_and_center (resize : Img → Nat → Nat → Img) (big_img : Img) (W H : Nat) (cr : ℚ) :
    Option Img :=
  if target_size W H cr < 0 then none
  else
    some (paste (image_new W H black)
      (resize big_img (target_size W H cr).toNat (target_size W H cr).toNat)
      (Int.fdiv ((W : Int) - target_size W H cr) 2)
      (Int.fdiv ((H : Int) - target_size W H cr) 2))

/-- Failure taxonomy of one pipeline run. -/
inductive RunFailure (E : Type) where
  | gridUnavailable : E → RunFailure E
  | compositionError : RunFailure E

/-- Observable outcome of one `main` run: surviving PNG files after pruning,
the saved artifact, the path handed to the wallpaper sink, and the failure. -/
structure MainResult (E : Type) where
  filesAfterPrune : List String
  saved : Option String
  sinkApplied : Option String
  failure : Option (RunFailure E)

/-- Artifact filename built by `save_wallpaper`. -/
def save_name (nd tile_size : Nat) (time_str : String) : String :=
  toString nd ++ "d_" ++ toString tile_size ++ "_" ++ convert_time time_str ++ ".png"

/-- Model of `main`: prune, then download, stitch, compose, save, and hand the
saved path to the wallpaper sink; any failure aborts the remaining steps. -/
def run_main {E : Type} (entries : List String) (max_pic nd tile_size : Nat)
    (fetchCell : Nat → Nat → Except E Img) (resize : Img → Nat → Nat → Img)
    (W H : Nat) (cr : ℚ) (time_str : String) : MainResult E :=
  let pruned := clean_old_images entries max_pic
  match download_tiles nd fetchCell with
  | .error e => ⟨pruned, none, none, some (.gridUnavailable e)⟩
  | .ok tiles =>
    match resize_and_center resize (stitch_tiles nd tiles) W H cr with
    | none => ⟨pruned, none, none, some .compositionError⟩
    | some _ =>
      ⟨pruned, some (save_name nd tile_size time_str), some (save_name nd tile_size time_str),
        none⟩

/-- A 2-by-2 grid whose first tile is 2-by-2 while the others are 1-by-1,
violating the uniform-size assumption. -/
def mismatched_tiles : List (List Img) :=
  [[image_new 2 2 white, image_new 1 1 white],
   [image_new 1 1 white, image_new 1 1 white]]

/-- A concrete mirror oracle: mirror 0 fails, mirrors 1 and 2 succeed. -/
def mirror_probe (n : Nat) : Except Unit Img :=
  if n = 1 ∨ n = 2 then .ok (image_new 1 1 white) else .error ()

theorem insert_by_key_length (x : String) (l : List String) :
    (insert_by_key x l).length = l.length + 1 := by
  induction l with
  | nil => rfl
  | cons y ys ih =>
    by_cases h : le_chars (get_timestamp x).data (get_timestamp y).data = true
    · simp [insert_by_key, h]
    · simp [insert_by_key, h, ih]

theorem sort_by_timestamp_length (l : List String) :
    (sort_by_timestamp l).length = l.length := by
  induction l with
  | nil => rfl
  | cons y ys ih =>
    simp only [sort_by_timestamp, List.foldr_cons] at ih ⊢
    rw [insert_by_key_length, ih]
    rfl

/-- C10: pruning a directory holding more than `max_images` PNG files of any
kind, tile debug files included, leaves exactly `max_images` PNG files. -/
theorem clean_old_images_count (entries : List String) (max_images : Nat)
    (h : max_images < (list_png entries).length) :
    (clean_old_images entries max_images).length = max_images := by
  unfold clean_old_images
  rw [if_neg (by omega)]
  rw [List.length_drop, sort_by_timestamp_length]
  omega

theorem clean_old_images_count_witness :
    1 < (list_png ["tile_0_0.png", "4d_550_2024__01__01__000000.png", "notes.txt"]).length ∧
      (clean_old_images ["tile_0_0.png", "4d_550_2024__01__01__000000.png", "notes.txt"]
        1).length = 1 :=
  ⟨by decide, clean_old_images_count _ 1 (by decide)⟩

/-- C1: evaluation of the pruning code on two validly named artifacts from the
same year, listed newest-first, with a retention cap of 1. The sort key of
both files is only the year token "2024", because the double underscores
written by `convert_time` make `parts[2]` the year rather than the whole
timestamp, so the stable sort keeps the listing order and the run deletes the
newer artifact, keeping the older one. -/
theorem clean_old_images_same_year :
    get_timestamp "4d_550_2024__01__02__000000.png" = "2024" ∧
      get_timestamp "4d_550_2024__01__01__000000.png" = "2024" ∧
      clean_old_images
          ["4d_550_2024__01__02__000000.png", "4d_550_2024__01__01__000000.png"] 1
        = ["4d_550_2024__01__01__000000.png"] := by
  refine ⟨?_, ?_, ?_⟩ <;> decide

theorem replace_time_fields (t m : Nat) (hm : m < 60) :
    minute_of (replace_time t m 0 0) = m ∧
      second_of (replace_time t m 0 0) = 0 ∧
      micro_of (replace_time t m 0 0) = 0 := by
  unfold replace_time minute_of second_of micro_of MICROS_PER_MINUTE MICROS_PER_HOUR
  omega

/-- C3: the aligned time is now minus the lag, with its minute field truncated
down to the nearest multiple of the granularity and the seconds and
microseconds zeroed; in particular the aligned minute is a multiple of the
granularity. -/
theorem get_aligned_time_spec (now delay g : Nat)
    (hd : delay * MICROS_PER_MINUTE ≤ now) (hg : 0 < g) :
    get_aligned_time now delay g
        = replace_time (now - delay * MICROS_PER_MINUTE)
            (minute_of (now - delay * MICROS_PER_MINUTE) / g * g) 0 0 ∧
      minute_of (get_aligned_time now delay g)
        = minute_of (now - delay * MICROS_PER_MINUTE) / g * g ∧
      second_of (get_aligned_time now delay g) = 0 ∧
      micro_of (get_aligned_time now delay g) = 0 ∧
      minute_of (get_aligned_time now delay g) % g = 0 := by
  have hm : minute_of (now - delay * MICROS_PER_MINUTE) / g * g < 60 := by
    have h1 : minute_of (now - delay * MICROS_PER_MINUTE) < 60 :=
      Nat.mod_lt _ (by norm_num)
    have h2 : minute_of (now - delay * MICROS_PER_MINUTE) / g * g
        ≤ minute_of (now - delay * MICROS_PER_MINUTE) := Nat.div_mul_le_self _ _
    omega
  obtain ⟨f1, f2, f3⟩ := replace_time_fields (now - delay * MICROS_PER_MINUTE)
    (minute_of (now - delay * MICROS_PER_MINUTE) / g * g) hm
  refine ⟨rfl, ?_, ?_, ?_, ?_⟩
  · exact f1
  · exact f2
  · exact f3
  · rw [show minute_of (get_aligned_time now delay g)
        = minute_of (now - delay * MICROS_PER_MINUTE) / g * g from f1]
    exact Nat.mul_mod_left _ _

theorem get_aligned_time_spec_witness :
    minute_of (get_aligned_time 1760000000000000 30 10) % 10 = 0 :=
  (get_aligned_time_spec 1760000000000000 30 10 (by norm_num [MICROS_PER_MINUTE])
    (by norm_num)).2.2.2.2

theorem lt_chars_zero_of_digits (tok : List Char) (hlen : 2 ≤ tok.length)
    (hd : ∀ ch ∈ tok, ch.isDigit = true) : lt_chars ['0'] tok = true := by
  cases tok with
  | nil => simp at hlen
  | cons c0 rest =>
    cases rest with
    | nil => simp at hlen
    | cons c1 r1 =>
      have h0 := hd c0 (List.mem_cons_self c0 (c1 :: r1))
      simp only [Char.isDigit, Bool.and_eq_true, decide_eq_true_eq] at h0
      by_cases hlt : ('0' : Char) < c0
      · simp [lt_chars, hlt]
      · have hnot : ¬ c0 < '0' := not_lt.mpr h0.1
        simp [lt_chars, hlt, hnot]

/-- C8 counterexample: the name a_b_c.png contains no timestamp, yet its stem
has three underscore-separated fields, so the code keys it by its third field
"c" instead of the oldest value "0"; "c" sorts after the year key of a valid
artifact, and pruning with cap 1 deletes the valid artifact and keeps the
malformed file — the malformed name does not sort as the oldest value. -/
theorem get_timestamp_third_field_counter :
    get_timestamp "a_b_c.png" = "c" ∧
      lt_chars (get_timestamp "4d_550_2024__01__01__000000.png").data
        (get_timestamp "a_b_c.png").data = true ∧
      clean_old_images ["4d_550_2024__01__01__000000.png", "a_b_c.png"] 1
        = ["a_b_c.png"] := by
  refine ⟨?_, ?_, ?_⟩ <;> decide

/-- C8 amended: only a file whose stem has fewer than three underscore
separated fields is keyed with the fallback token "0", which sorts strictly
before the key of any validly named artifact, whose third field is a
four-digit year token; a malformed name with three or more fields is instead
keyed by its third field, which may sort after valid artifacts; the key
function is total, so pruning cannot fail on a malformed name. -/
theorem get_timestamp_malformed (bad good : String)
    (hb : (split_on_char ('_') (stem_of bad).data).length < 3)
    (h3 : 3 ≤ (split_on_char ('_') (stem_of good).data).length)
    (hlen : ((split_on_char ('_') (stem_of good).data).getD 2 ['0']).length = 4)
    (hdig : ∀ ch ∈ (split_on_char ('_') (stem_of good).data).getD 2 ['0'],
      ch.isDigit = true) :
    get_timestamp bad = "0" ∧
      lt_chars (get_timestamp bad).data (get_timestamp good).data = true := by
  have hbad : get_timestamp bad = "0" := by
    simp only [get_timestamp]
    rw [if_neg (by omega)]
  have hgood : (get_timestamp good).data
      = (split_on_char ('_') (stem_of good).data).getD 2 ['0'] := by
    simp only [get_timestamp]
    rw [if_pos h3]
  refine ⟨hbad, ?_⟩
  rw [hbad, hgood]
  exact lt_chars_zero_of_digits _ (by omega) hdig

theorem get_timestamp_malformed_witness :
    get_timestamp "wallpaper.png" = "0" ∧
      lt_chars (get_timestamp "wallpaper.png").data
        (get_timestamp "4d_550_2024__01__01__000000.png").data = true :=
  get_timestamp_malformed "wallpaper.png" "4d_550_2024__01__01__000000.png"
    (by decide) (by decide) (by decide) (by decide)

theorem try_mirrors_first_ok {μ E : Type} (f : μ → Except E Img) (m : μ) (t : Img)
    (post : List μ) :
    ∀ (pre : List μ) (acc : Option E),
      (∀ x ∈ pre, ∃ e, f x = .error e) → f m = .ok t →
      try_mirrors f (pre ++ m :: post) acc = .ok t := by
  intro pre
  induction pre with
  | nil => intro acc _ hm; simp [try_mirrors, hm]
  | cons p ps ih =>
    intro acc hall hm
    obtain ⟨e0, he0⟩ := hall p (List.mem_cons_self p ps)
    simp only [List.cons_append, try_mirrors, he0]
    exact ih (some e0) (fun x hx => hall x (List.mem_cons_of_mem _ hx)) hm

theorem attempted_first_ok {μ E : Type} (f : μ → Except E Img) (m : μ) (t : Img)
    (post : List μ) :
    ∀ pre : List μ,
      (∀ x ∈ pre, ∃ e, f x = .error e) → f m = .ok t →
      attempted f (pre ++ m :: post) = pre ++ [m] := by
  intro pre
  induction pre with
  | nil => intro _ hm; simp [attempted, hm]
  | cons p ps ih =>
    intro hall hm
    obtain ⟨e0, he0⟩ := hall p (List.mem_cons_self p ps)
    simp only [List.cons_append, attempted, he0]
    exact congrArg (List.cons p) (ih (fun x hx => hall x (List.mem_cons_of_mem _ hx)) hm)

theorem try_mirrors_all_fail {μ E : Type} (f : μ → Except E Img) :
    ∀ (ms : List μ) (hne : ms ≠ []) (acc : Option E),
      (∀ x ∈ ms, ∃ e, f x = .error e) →
      ∃ e, f (ms.getLast hne) = .error e ∧ try_mirrors f ms acc = .error (some e) := by
  intro ms
  induction ms with
  | nil => intro hne; exact absurd rfl hne
  | cons m ms ih =>
    intro hne acc hall
    obtain ⟨e0, he0⟩ := hall m (List.mem_cons_self m ms)
    cases ms with
    | nil =>
      refine ⟨e0, ?_, ?_⟩
      · simpa [List.getLast] using he0
      · simp [try_mirrors, he0]
    | cons m1 ms1 =>
      obtain ⟨e, he, htm⟩ := ih (by simp) (some e0)
        (fun x hx => hall x (List.mem_cons_of_mem _ hx))
      refine ⟨e, ?_, ?_⟩
      · rw [List.getLast_cons]
        exact he
      · simp only [try_mirrors, he0]
        exact htm

theorem try_mirrors_error {μ E : Type} (f : μ → Except E Img) :
    ∀ (ms : List μ) (acc : Option E),
      (∀ x ∈ ms, ∃ e, f x = .error e) → ∃ err, try_mirrors f ms acc = .error err := by
  intro ms
  induction ms with
  | nil => intro acc _; exact ⟨acc, rfl⟩
  | cons m ms ih =>
    intro acc hall
    obtain ⟨e0, he0⟩ := hall m (List.mem_cons_self m ms)
    obtain ⟨err, herr⟩ := ih (some e0) (fun x hx => hall x (List.mem_cons_of_mem _ hx))
    exact ⟨err, by simp only [try_mirrors, he0]; exact herr⟩

/-- C4: mirrors are attempted strictly in list order: the first success stops
the scan with the remaining mirrors never attempted, and when every mirror
fails the cell fetch fails with the cell coordinate and the last underlying
error. -/
theorem fetch_cell_failover {μ E : Type} (f : μ → Except E Img) (row col : Nat) :
    (∀ (pre post : List μ) (m : μ) (t : Img),
        (∀ x ∈ pre, ∃ e, f x = .error e) → f m = .ok t →
        fetch_cell (pre ++ m :: post) f row col = .ok t ∧
          attempted f (pre ++ m :: post) = pre ++ [m]) ∧
      (∀ (mirrors : List μ) (hne : mirrors ≠ []),
        (∀ x ∈ mirrors, ∃ e, f x = .error e) →
        ∃ e, f (mirrors.getLast hne) = .error e ∧
          fetch_cell mirrors f row col = .error ⟨col, row, some e⟩) := by
  constructor
  · intro pre post m t hall hm
    have h1 := try_mirrors_first_ok f m t post pre none hall hm
    refine ⟨?_, attempted_first_ok f m t post pre hall hm⟩
    simp [fetch_cell, h1]
  · intro mirrors hne hall
    obtain ⟨e, he, htm⟩ := try_mirrors_all_fail f mirrors hne none hall
    exact ⟨e, he, by simp [fetch_cell, htm]⟩

theorem fetch_cell_failover_witness :
    fetch_cell [0, 1, 2] mirror_probe 0 0 = .ok (image_new 1 1 white) ∧
      attempted mirror_probe [0, 1, 2] = [0, 1] := by
  have h := (fetch_cell_failover mirror_probe 0 0).1 [0] [2] 1 (image_new 1 1 white)
    (by
      intro x hx
      simp only [List.mem_singleton] at hx
      subst hx
      exact ⟨(), rfl⟩)
    (by rfl)
  exact h

theorem collect_results_error_of_mem {E A : Type} :
    ∀ (l : List (Except E A)) (e : E), Except.error e ∈ l →
      ∃ e2, collect_results l = .error e2 := by
  intro l
  induction l with
  | nil => intro e he; simp at he
  | cons x xs ih =>
    intro e he
    cases x with
    | error e0 => exact ⟨e0, rfl⟩
    | ok a =>
      have h2 : Except.error e ∈ xs := by
        rcases List.mem_cons.mp he with h1 | h1
        · simp at h1
        · exact h1
      obtain ⟨e2, h3⟩ := ih e h2
      refine ⟨e2, ?_⟩
      simp only [collect_results, h3]

theorem download_tiles_error {E : Type} (nd : Nat) (fetchCell : Nat → Nat → Except E Img)
    (r c : Nat) (hr : r < nd) (hc : c < nd) (e : E) (he : fetchCell r c = .error e) :
    ∃ e2, download_tiles nd fetchCell = .error e2 := by
  have hmem : Except.error e ∈ (List.range nd).map (fun col => fetchCell r col) := by
    rw [← he]
    exact List.mem_map_of_mem _ (List.mem_range.mpr hc)
  obtain ⟨e1, h1⟩ := collect_results_error_of_mem _ e hmem
  have hmem2 : Except.error e1 ∈ (List.range nd).map (fun row =>
      collect_results ((List.range nd).map (fun col => fetchCell row col))) := by
    rw [← h1]
    exact List.mem_map_of_mem _ (List.mem_range.mpr hr)
  exact collect_results_error_of_mem _ e1 hmem2

/-- C2: when one cell exhausts every mirror, the run fails with a grid
error: nothing is saved, the wallpaper sink is not invoked, and the pruning
already performed stands (the surviving files are those of the prune). -/
theorem run_main_grid_failure {μ E : Type} (entries : List String)
    (max_pic nd tile_size : Nat) (mirrors : List μ) (f : Nat → Nat → μ → Except E Img)
    (resize : Img → Nat → Nat → Img) (W H : Nat) (cr : ℚ) (time_str : String)
    (r c : Nat) (hr : r < nd) (hc : c < nd)
    (hfail : ∀ m ∈ mirrors, ∃ e, f r c m = .error e) :
    (run_main entries max_pic nd tile_size
        (fun r0 c0 => fetch_cell mirrors (f r0 c0) r0 c0) resize W H cr time_str).saved
        = none ∧
      (run_main entries max_pic nd tile_size
        (fun r0 c0 => fetch_cell mirrors (f r0 c0) r0 c0) resize W H cr
        time_str).sinkApplied = none ∧
      (run_main entries max_pic nd tile_size
        (fun r0 c0 => fetch_cell mirrors (f r0 c0) r0 c0) resize W H cr
        time_str).filesAfterPrune = clean_old_images entries max_pic ∧
      ∃ tu, (run_main entries max_pic nd tile_size
        (fun r0 c0 => fetch_cell mirrors (f r0 c0) r0 c0) resize W H cr
        time_str).failure = some (.gridUnavailable tu) := by
  obtain ⟨err, herr⟩ := try_mirrors_error (f r c) mirrors none hfail
  have hcell : fetch_cell mirrors (f r c) r c = .error ⟨c, r, err⟩ := by
    simp [fetch_cell, herr]
  obtain ⟨e2, h2⟩ := download_tiles_error nd
    (fun r0 c0 => fetch_cell mirrors (f r0 c0) r0 c0) r c hr hc _ hcell
  unfold run_main
  rw [h2]
  exact ⟨rfl, rfl, rfl, ⟨e2, rfl⟩⟩

theorem run_main_grid_failure_witness :
    (run_main [] 0 1 550 (fun r0 c0 => fetch_cell [0] (fun _ => Except.error ()) r0 c0)
        (fun _ w2 h2 => image_new w2 h2 black) 1920 1080 1 "t").saved = none :=
  (run_main_grid_failure [] 0 1 550 [0] (fun _ _ _ => Except.error ())
    (fun _ w2 h2 => image_new w2 h2 black) 1920 1080 1 "t" 0 0 (by norm_num) (by norm_num)
    (fun _ _ => ⟨(), rfl⟩)).1

theorem paste_pix (base tile : Img) (ox oy : Int) (x y : Nat) :
    (paste base tile ox oy).pix x y
      = if covers tile ox oy x y then
          tile.pix ((x : Int) - ox).toNat ((y : Int) - oy).toNat
        else base.pix x y := rfl

theorem paste_grid_cons (tiles : List (List Img)) (tw th : Nat) (rc : Nat × Nat)
    (l : List (Nat × Nat)) (init : Img) :
    paste_grid tiles tw th (rc :: l) init
      = paste_grid tiles tw th l
          (paste init (tile_at tiles rc.1 rc.2) ((rc.2 * tw : Nat) : Int)
            ((rc.1 * th : Nat) : Int)) := rfl

theorem paste_grid_w (tiles : List (List Img)) (tw th : Nat) :
    ∀ (l : List (Nat × Nat)) (init : Img), (paste_grid tiles tw th l init).w = init.w := by
  intro l
  induction l with
  | nil => intro init; rfl
  | cons rc l ih =>
    intro init
    rw [paste_grid_cons, ih]
    rfl

theorem paste_grid_h (tiles : List (List Img)) (tw th : Nat) :
    ∀ (l : List (Nat × Nat)) (init : Img), (paste_grid tiles tw th l init).h = init.h := by
  intro l
  induction l with
  | nil => intro init; rfl
  | cons rc l ih =>
    intro init
    rw [paste_grid_cons, ih]
    rfl

theorem paste_grid_pix_away (tiles : List (List Img)) (tw th : Nat) (x y : Nat) :
    ∀ (l : List (Nat × Nat)) (init : Img),
      (∀ rc ∈ l,
        ¬ covers (tile_at tiles rc.1 rc.2) ((rc.2 * tw : Nat) : Int) ((rc.1 * th : Nat) : Int)
          x y) →
      (paste_grid tiles tw th l init).pix x y = init.pix x y := by
  intro l
  induction l with
  | nil => intro init _; rfl
  | cons rc l ih =>
    intro init hnc
    rw [paste_grid_cons, ih _ (fun rc2 h2 => hnc rc2 (List.mem_cons_of_mem _ h2))]
    rw [paste_pix, if_neg (hnc rc (List.mem_cons_self rc l))]

theorem paste_grid_pix_cover (tiles : List (List Img)) (tw th : Nat) (x y : Nat)
    (r c : Nat) :
    ∀ (l : List (Nat × Nat)) (init : Img),
      (r, c) ∈ l →
      covers (tile_at tiles r c) ((c * tw : Nat) : Int) ((r * th : Nat) : Int) x y →
      (∀ rc ∈ l,
        covers (tile_at tiles rc.1 rc.2) ((rc.2 * tw : Nat) : Int) ((rc.1 * th : Nat) : Int)
          x y → rc = (r, c)) →
      (paste_grid tiles tw th l init).pix x y
        = (tile_at tiles r c).pix ((x : Int) - ((c * tw : Nat) : Int)).toNat
            ((y : Int) - ((r * th : Nat) : Int)).toNat := by
  intro l
  induction l with
  | nil =>
    intro init hmem
    simp at hmem
  | cons rc l ih =>
    intro init hmem hcov huniq
    rw [paste_grid_cons]
    by_cases hmem2 : (r, c) ∈ l
    · exact ih _ hmem2 hcov (fun rc2 h2 hc2 => huniq rc2 (List.mem_cons_of_mem _ h2) hc2)
    · have hrc : rc = (r, c) := by
        rcases List.mem_cons.mp hmem with h | h
        · exact h.symm
        · exact absurd h hmem2
      subst hrc
      have hnone : ∀ rc2 ∈ l,
          ¬ covers (tile_at tiles rc2.1 rc2.2) ((rc2.2 * tw : Nat) : Int)
            ((rc2.1 * th : Nat) : Int) x y := by
        intro rc2 h2 hc2
        have heq := huniq rc2 (List.mem_cons_of_mem _ h2) hc2
        rw [heq] at h2
        exact hmem2 h2
      rw [paste_grid_pix_away tiles tw th x y l _ hnone]
      rw [paste_pix, if_pos hcov]

theorem row_major_mem (nd r c : Nat) (hr : r < nd) (hc : c < nd) :
    (r, c) ∈ row_major nd := by
  unfold row_major
  rw [List.mem_flatten]
  refine ⟨(List.range nd).map (fun col => (r, col)), ?_, ?_⟩
  · exact List.mem_map_of_mem _ (List.mem_range.mpr hr)
  · exact List.mem_map_of_mem _ (List.mem_range.mpr hc)

theorem row_major_lt (nd : Nat) : ∀ rc ∈ row_major nd, rc.1 < nd ∧ rc.2 < nd := by
  intro rc h
  unfold row_major at h
  rw [List.mem_flatten] at h
  obtain ⟨l, hl, hrc⟩ := h
  rw [List.mem_map] at hl
  obtain ⟨r, hr, rfl⟩ := hl
  rw [List.mem_map] at hrc
  obtain ⟨c, hc, rfl⟩ := hrc
  exact ⟨List.mem_range.mp hr, List.mem_range.mp hc⟩

theorem cell_uniq {a b dx w : Nat} (hdx : dx < w) (h1 : b * w ≤ a * w + dx)
    (h2 : a * w + dx < b * w + w) : b = a := by
  rcases Nat.lt_trichotomy a b with h | h | h
  · exfalso
    have h3 : (a + 1) * w ≤ b * w := Nat.mul_le_mul_right w h
    rw [Nat.succ_mul] at h3
    have h4 : a * w + w ≤ a * w + dx := le_trans h3 h1
    exact absurd (Nat.le_of_add_le_add_left h4) (Nat.not_le.mpr hdx)
  · exact h.symm
  · exfalso
    have h3 : (b + 1) * w ≤ a * w := Nat.mul_le_mul_right w h
    rw [Nat.succ_mul] at h3
    have h4 : b * w + w ≤ a * w + dx := le_trans h3 (Nat.le_add_right _ _)
    exact absurd (lt_of_lt_of_le h2 h4) (lt_irrefl _)

theorem covers_block (tile : Img) (w h r c dx dy : Nat) (hw : tile.w = w) (hh : tile.h = h)
    (hdx : dx < w) (hdy : dy < h) :
    covers tile ((c * w : Nat) : Int) ((r * h : Nat) : Int) (c * w + dx) (r * h + dy) := by
  unfold covers
  rw [hw, hh]
  refine ⟨?_, ?_, ?_, ?_⟩
  · exact_mod_cast Nat.le_add_right _ _
  · have : c * w + dx < c * w + w := Nat.add_lt_add_left hdx _
    exact_mod_cast this
  · exact_mod_cast Nat.le_add_right _ _
  · have : r * h + dy < r * h + h := Nat.add_lt_add_left hdy _
    exact_mod_cast this

theorem covers_block_uniq (tile : Img) (w h r c r2 c2 dx dy : Nat)
    (hw : tile.w = w) (hh : tile.h = h) (hdx : dx < w) (hdy : dy < h)
    (hcov : covers tile ((c2 * w : Nat) : Int) ((r2 * h : Nat) : Int) (c * w + dx)
      (r * h + dy)) : r2 = r ∧ c2 = c := by
  unfold covers at hcov
  rw [hw, hh] at hcov
  obtain ⟨hc1, hc2, hc3, hc4⟩ := hcov
  have n1 : c2 * w ≤ c * w + dx := by exact_mod_cast hc1
  have n2 : c * w + dx < c2 * w + w := by exact_mod_cast hc2
  have n3 : r2 * h ≤ r * h + dy := by exact_mod_cast hc3
  have n4 : r * h + dy < r2 * h + h := by exact_mod_cast hc4
  exact ⟨cell_uniq hdy n3 n4, cell_uniq hdx n1 n2⟩

/-- C5: when every cell of the nd-by-nd grid is present at one uniform size
(w, h), the composite measures nd*w by nd*h, and the pixel block starting at
(c*w, r*h) is exactly the source tile of cell (r, c), which was pasted at
that offset by the row-major paste loop. -/
theorem stitch_tiles_spec (nd : Nat) (tiles : List (List Img)) (w h : Nat) (hnd : 0 < nd)
    (hsz : ∀ r, r < nd → ∀ c, c < nd →
      (tile_at tiles r c).w = w ∧ (tile_at tiles r c).h = h) :
    (stitch_tiles nd tiles).w = nd * w ∧
      (stitch_tiles nd tiles).h = nd * h ∧
      ∀ r c dx dy, r < nd → c < nd → dx < w → dy < h →
        (stitch_tiles nd tiles).pix (c * w + dx) (r * h + dy)
          = (tile_at tiles r c).pix dx dy := by
  obtain ⟨hw0, hh0⟩ := hsz 0 hnd 0 hnd
  unfold stitch_tiles
  rw [hw0, hh0]
  refine ⟨?_, ?_, ?_⟩
  · rw [paste_grid_w]
    exact Nat.mul_comm w nd
  · rw [paste_grid_h]
    exact Nat.mul_comm h nd
  · intro r c dx dy hr hc hdx hdy
    obtain ⟨hcw, hch⟩ := hsz r hr c hc
    have hmem := row_major_mem nd r c hr hc
    have hcov := covers_block (tile_at tiles r c) w h r c dx dy hcw hch hdx hdy
    have huniq : ∀ rc ∈ row_major nd,
        covers (tile_at tiles rc.1 rc.2) ((rc.2 * w : Nat) : Int) ((rc.1 * h : Nat) : Int)
          (c * w + dx) (r * h + dy) → rc = (r, c) := by
      intro rc hrc hcrc
      obtain ⟨h1, h2⟩ := row_major_lt nd rc hrc
      obtain ⟨hw2, hh2⟩ := hsz rc.1 h1 rc.2 h2
      obtain ⟨e1, e2⟩ := covers_block_uniq (tile_at tiles rc.1 rc.2) w h r c rc.1 rc.2 dx dy
        hw2 hh2 hdx hdy hcrc
      exact Prod.ext e1 e2
    rw [paste_grid_pix_cover tiles w h (c * w + dx) (r * h + dy) r c (row_major nd) _
      hmem hcov huniq]
    have ex : (((c * w + dx : Nat) : Int) - ((c * w : Nat) : Int)).toNat = dx := by
      have : ((c * w + dx : Nat) : Int) - ((c * w : Nat) : Int) = (dx : Int) := by
        push_cast
        ring
      rw [this]
      exact Int.toNat_natCast dx
    have ey : (((r * h + dy : Nat) : Int) - ((r * h : Nat) : Int)).toNat = dy := by
      have : ((r * h + dy : Nat) : Int) - ((r * h : Nat) : Int) = (dy : Int) := by
        push_cast
        ring
      rw [this]
      exact Int.toNat_natCast dy
    rw [ex, ey]

theorem stitch_tiles_spec_witness :
    (stitch_tiles 1 [[image_new 1 1 white]]).pix (0 * 1 + 0) (0 * 1 + 0)
      = (tile_at [[image_new 1 1 white]] 0 0).pix 0 0 :=
  (stitch_tiles_spec 1 [[image_new 1 1 white]] 1 1 (by norm_num)
    (by
      intro r hr c hc
      have hr0 : r = 0 := by omega
      have hc0 : c = 0 := by omega
      subst hr0
      subst hc0
      exact ⟨rfl, rfl⟩)).2.2 0 0 0 0 (by norm_num) (by norm_num) (by norm_num) (by norm_num)

/-- C7 counterexample: stitching a grid whose tiles disagree in size raises no
error in the source. On a 2-by-2 grid whose first tile is 2-by-2 while the
rest are 1-by-1, it returns a 4-by-4 composite in which the pixel (3, 0),
inside cell (0,1)'s nominal region, stays at the background color even though
the source tile of that cell is all white: a silent misalignment, not a
`GridUnavailable` failure. -/
theorem stitch_tiles_mismatch_no_error :
    (stitch_tiles 2 mismatched_tiles).w = 4 ∧
      (stitch_tiles 2 mismatched_tiles).h = 4 ∧
      (stitch_tiles 2 mismatched_tiles).pix 3 0 = black ∧
      (tile_at mismatched_tiles 0 1).pix 1 0 = white := by
  refine ⟨?_, ?_, ?_, ?_⟩ <;> decide

/-- C7 amended: stitching is total: whatever the tile sizes, it returns a
composite sized from the first tile, and never fails. -/
theorem stitch_tiles_total (nd : Nat) (tiles : List (List Img)) :
    (stitch_tiles nd tiles).w = (tile_at tiles 0 0).w * nd ∧
      (stitch_tiles nd tiles).h = (tile_at tiles 0 0).h * nd := by
  unfold stitch_tiles
  rw [paste_grid_w, paste_grid_h]
  exact ⟨rfl, rfl⟩

/-- C6: for a nonnegative cover ratio the truncated target size is the floor
of the short canvas edge times the ratio; composition allocates a black
canvas of the full canvas size and pastes the resized square composite at the
half-gap offsets computed with floor division; at 1920 by 1080 with ratio
9/10 this gives target 972 and offsets 474 and 54. -/
theorem resize_and_center_spec (resize : Img → Nat → Nat → Img) (big_img : Img)
    (W H : Nat) (cr : ℚ) (hcr : 0 ≤ cr) :
    target_size W H cr = ⌊((min W H : Nat) : ℚ) * cr⌋ ∧
      resize_and_center resize big_img W H cr
        = some (paste (image_new W H black)
            (resize big_img (target_size W H cr).toNat (target_size W H cr).toNat)
            (Int.fdiv ((W : Int) - target_size W H cr) 2)
            (Int.fdiv ((H : Int) - target_size W H cr) 2)) ∧
      target_size 1920 1080 (9 / 10) = 972 ∧
      Int.fdiv ((1920 : Int) - 972) 2 = 474 ∧
      Int.fdiv ((1080 : Int) - 972) 2 = 54 := by
  have hq : (0 : ℚ) ≤ ((min W H : Nat) : ℚ) * cr :=
    mul_nonneg (by positivity) hcr
  have hfloor : target_size W H cr = ⌊((min W H : Nat) : ℚ) * cr⌋ := by
    unfold target_size int_trunc
    rw [if_pos hq]
  have hnonneg : 0 ≤ target_size W H cr := by
    rw [hfloor]
    exact Int.floor_nonneg.mpr hq
  refine ⟨hfloor, ?_, ?_, by decide, by decide⟩
  · unfold resize_and_center
    rw [if_neg (by omega)]
  · unfold target_size int_trunc
    norm_num

theorem resize_and_center_spec_witness :
    target_size 1920 1080 (9 / 10) = 972 :=
  (resize_and_center_spec (fun _ w2 h2 => image_new w2 h2 black) (image_new 4 4 black)
    1920 1080 (9 / 10) (by norm_num)).2.2.1

/-- C9 counterexample: a cover ratio of 2, outside the interval (0, 1], is not
rejected: composition still produces a canvas, computing target size 200 on a
100 by 100 canvas and pasting the oversized composite at offset -50. -/
theorem resize_and_center_ratio_two :
    (resize_and_center (fun _ w2 h2 => image_new w2 h2 black) (image_new 4 4 white)
        100 100 2).isSome = true ∧
      target_size 100 100 2 = 200 ∧
      Int.fdiv ((100 : Int) - 200) 2 = -50 := by
  have ht : target_size 100 100 2 = 200 := by
    unfold target_size int_trunc
    norm_num
  refine ⟨?_, ht, by decide⟩
  unfold resize_and_center
  rw [if_neg (by rw [ht]; omega)]
  rfl

/-- C9 amended: composition performs no cover-ratio validation: every ratio
greater than 1 on a nonempty canvas still produces a canvas image instead of
being rejected as a configuration error. -/
theorem resize_and_center_no_validation (resize : Img → Nat → Nat → Img) (big_img : Img)
    (W H : Nat) (cr : ℚ) (h1 : 1 < cr) (hW : 0 < W) (hH : 0 < H) :
    (resize_and_center resize big_img W H cr).isSome = true := by
  have hq : (0 : ℚ) ≤ ((min W H : Nat) : ℚ) * cr := by
    have : (0 : ℚ) ≤ ((min W H : Nat) : ℚ) := by positivity
    nlinarith
  have hnonneg : 0 ≤ target_size W H cr := by
    unfold target_size int_trunc
    rw [if_pos hq]
    exact Int.floor_nonneg.mpr hq
  unfold resize_and_center
  rw [if_neg (by omega)]
  rfl

theorem resize_and_center_no_validation_witness :
    (resize_and_center (fun _ w2 h2 => image_new w2 h2 black) (image_new 1 1 white)
        100 100 2).isSome = true :=
  resize_and_center_no_validation (fun _ w2 h2 => image_new w2 h2 black)
    (image_new 1 1 white) 100 100 2 (by norm_num) (by norm_num) (by norm_num)

end Himawari
